import Mathlib

/-!
Formal model of the `imguizmo` Rust wrapper crate
(`src/imguizmo/src/lib.rs`).

Scalars of the Rust code are `f32`.  Two models of `f32` are used here:

* `Fq`: a rational value together with the IEEE-754 special values
  `inf`, `-inf` and `nan`.  Finite arithmetic is exact (rounding and
  overflow of finite intermediate values are not modelled); division by
  zero and arithmetic on the special values follow IEEE-754.  This model
  is used for the claims about degenerate inputs, where the special
  values matter.
* exact real numbers `ℝ`, for the functions involving `tan` and for the
  algebraic claims, where the finite values themselves matter.

Matrices are stored exactly as in the Rust code: `Matrix4 α` is the
array `[[α; 4]; 4]`, `m c` being the inner array `m[c]`, which is column
`c` of the column-major matrix.
-/

namespace ImGuizmoSpec

/-- An `f32` value in the extended model: an exact finite rational,
positive infinity, negative infinity, or NaN. -/
inductive Fq where
  | fin (x : ℚ)
  | inf
  | ninf
  | nan
deriving DecidableEq

/-- IEEE-754 negation on `Fq`. -/
def Fq.neg : Fq → Fq
  | .fin x => .fin (-x)
  | .inf => .ninf
  | .ninf => .inf
  | .nan => .nan

/-- IEEE-754 addition on `Fq` (exact on finite values). -/
def Fq.add : Fq → Fq → Fq
  | .fin x, .fin y => .fin (x + y)
  | .fin _, .inf => .inf
  | .fin _, .ninf => .ninf
  | .inf, .fin _ => .inf
  | .ninf, .fin _ => .ninf
  | .inf, .inf => .inf
  | .ninf, .ninf => .ninf
  | .inf, .ninf => .nan
  | .ninf, .inf => .nan
  | .nan, _ => .nan
  | _, .nan => .nan

/-- IEEE-754 subtraction on `Fq`: `a - b = a + (-b)`. -/
def Fq.sub (a b : Fq) : Fq := Fq.add a (Fq.neg b)

/-- IEEE-754 multiplication on `Fq` (exact on finite values). -/
def Fq.mul : Fq → Fq → Fq
  | .fin x, .fin y => .fin (x * y)
  | .fin x, .inf => if x = 0 then .nan else if 0 < x then .inf else .ninf
  | .fin x, .ninf => if x = 0 then .nan else if 0 < x then .ninf else .inf
  | .inf, .fin y => if y = 0 then .nan else if 0 < y then .inf else .ninf
  | .ninf, .fin y => if y = 0 then .nan else if 0 < y then .ninf else .inf
  | .inf, .inf => .inf
  | .inf, .ninf => .ninf
  | .ninf, .inf => .ninf
  | .ninf, .ninf => .inf
  | .nan, _ => .nan
  | _, .nan => .nan

/-- IEEE-754 division on `Fq` (exact on finite values; a nonzero finite
value divided by zero gives an infinity of the numerator's sign, `0/0`
gives NaN; the sign of zero is not modelled). -/
def Fq.div : Fq → Fq → Fq
  | .fin x, .fin y =>
      if y = 0 then (if x = 0 then .nan else if 0 < x then .inf else .ninf)
      else .fin (x / y)
  | .fin _, .inf => .fin 0
  | .fin _, .ninf => .fin 0
  | .inf, .fin y => if 0 ≤ y then .inf else .ninf
  | .ninf, .fin y => if 0 ≤ y then .ninf else .inf
  | .nan, _ => .nan
  | _, _ => .nan

instance : Neg Fq := ⟨Fq.neg⟩

instance : Add Fq := ⟨Fq.add⟩

instance : Sub Fq := ⟨Fq.sub⟩

instance : Mul Fq := ⟨Fq.mul⟩

instance : Div Fq := ⟨Fq.div⟩

/-- `true` exactly when the value is finite (neither an infinity nor NaN). -/
def Fq.isFinite : Fq → Bool
  | .fin _ => true
  | _ => false

/-- The Rust `Matrix4 = [[f32; 4]; 4]`: `m c` is the inner array `m[c]`
(column `c` of the column-major matrix). -/
def Matrix4 (α : Type) : Type := Fin 4 → Fin 4 → α

/-- The Rust `Vector4 = [f32; 4]`. -/
def Vec4 (α : Type) : Type := Fin 4 → α

/-- The Rust `Vector3 = [f32; 3]`, as a triple. -/
def Vec3 (α : Type) : Type := α × α × α

/-- `frustum` from `src/imguizmo/src/lib.rs` (lines 499-535), in the
extended-float model `Fq`: `t1 = 2*znear`, `t2 = right-left`,
`t3 = top-bottom`, `t4 = zfar-znear`, and the sixteen entries as
assigned by the source. -/
def frustumF (left right bottom top znear zfar : Fq) : Matrix4 Fq :=
  let t1 := Fq.fin 2 * znear
  let t2 := right - left
  let t3 := top - bottom
  let t4 := zfar - znear
  ![![t1 / t2, Fq.fin 0, Fq.fin 0, Fq.fin 0],
    ![Fq.fin 0, t1 / t3, Fq.fin 0, Fq.fin 0],
    ![(right + left) / t2, (top + bottom) / t3, (-zfar - znear) / t4, Fq.fin (-1)],
    ![Fq.fin 0, Fq.fin 0, (-t1 * zfar) / t4, Fq.fin 0]]

/-- `orthographic` from `src/imguizmo/src/lib.rs` (lines 545-576), with
the finite values taken exactly (rational model). -/
def orthographicQ (left right bottom top znear zfar : ℚ) : Matrix4 ℚ :=
  ![![2 / (right - left), 0, 0, 0],
    ![0, 2 / (top - bottom), 0, 0],
    ![0, 0, 1 / (zfar - znear), 0],
    ![(left + right) / (left - right), (top + bottom) / (bottom - top),
      znear / (znear - zfar), 1]]

/-- Application of a column-major `Matrix4` to a homogeneous 4-vector:
`(M v) i = Σ c, m[c][i] * v[c]`. -/
def mulVec4 {α : Type} [Add α] [Mul α] (m : Matrix4 α) (v : Vec4 α) : Vec4 α :=
  fun i => m 0 i * v 0 + m 1 i * v 1 + m 2 i * v 2 + m 3 i * v 3

/-- The map a `Matrix4` induces on 3-D points: embed at `w = 1`, apply,
and keep the first three components (no perspective division). -/
def pointMap (m : Matrix4 ℚ) (p : Vec3 ℚ) : Vec3 ℚ :=
  let w := mulVec4 m ![p.1, p.2.1, p.2.2, 1]
  (w 0, w 1, w 2)

/-- `frustum` from `src/imguizmo/src/lib.rs` (lines 499-535), with the
`f32` values taken as exact reals. -/
noncomputable def frustumR (left right bottom top znear zfar : ℝ) : Matrix4 ℝ :=
  let t1 := 2 * znear
  let t2 := right - left
  let t3 := top - bottom
  let t4 := zfar - znear
  ![![t1 / t2, 0, 0, 0],
    ![0, t1 / t3, 0, 0],
    ![(right + left) / t2, (top + bottom) / t3, (-zfar - znear) / t4, -1],
    ![0, 0, (-t1 * zfar) / t4, 0]]

/-- `perspective` from `src/imguizmo/src/lib.rs` (lines 538-542):
`ymax = znear * tan(fovy_degrees * π / 180)`, `xmax = ymax * aspect_ratio`,
then `frustum(-xmax, xmax, -ymax, ymax, znear, zfar)`.  Note the source
takes the tangent of the full converted angle, not of its half. -/
noncomputable def perspective (fovy_degrees aspect_ratio znear zfar : ℝ) : Matrix4 ℝ :=
  let ymax := znear * Real.tan (fovy_degrees * Real.pi / 180)
  let xmax := ymax * aspect_ratio
  frustumR (-xmax) xmax (-ymax) ymax znear zfar

/-- The variant of `perspective` that the spec describes, with the
vertical half-extent `znear * tan(fovy/2)` (half the converted angle).
Written from the spec's words, to be compared with `perspective`. -/
noncomputable def perspectiveSpecHalfAngle (fovy_degrees aspect_ratio znear zfar : ℝ) :
    Matrix4 ℝ :=
  let ymax := znear * Real.tan (fovy_degrees * Real.pi / 180 / 2)
  let xmax := ymax * aspect_ratio
  frustumR (-xmax) xmax (-ymax) ymax znear zfar

/-- `orthographic` from `src/imguizmo/src/lib.rs` (lines 545-576), with
the `f32` values taken as exact reals. -/
noncomputable def orthographicR (left right bottom top znear zfar : ℝ) : Matrix4 ℝ :=
  ![![2 / (right - left), 0, 0, 0],
    ![0, 2 / (top - bottom), 0, 0],
    ![0, 0, 1 / (zfar - znear), 0],
    ![(left + right) / (left - right), (top + bottom) / (bottom - top),
      znear / (znear - zfar), 1]]

/-- The data the wrapper reads from the `imgui::Ui` frame context:
window position, window size, and display size. -/
structure Ui where
  window_pos : ℝ × ℝ
  window_size : ℝ × ℝ
  display_size : ℝ × ℝ

/-- The `Rect` viewport struct (`src/imguizmo/src/lib.rs` lines 340-347). -/
structure Rect where
  x : ℝ
  y : ℝ
  width : ℝ
  height : ℝ

/-- `Rect::from_window`: the current window's position and size. -/
def Rect.from_window (ui : Ui) : Rect :=
  ⟨ui.window_pos.1, ui.window_pos.2, ui.window_size.1, ui.window_size.2⟩

/-- `Rect::from_display`: origin zero and the display size. -/
def Rect.from_display (ui : Ui) : Rect :=
  ⟨0, 0, ui.display_size.1, ui.display_size.2⟩

/-- The `Operation` enum. -/
inductive Operation where
  | Translate
  | Rotate
  | Scale
  | Bounds
deriving DecidableEq

/-- The `Mode` enum. -/
inductive Mode where
  | Local
  | World
deriving DecidableEq

/-- The `Projection` enum (`src/imguizmo/src/lib.rs` lines 43-52). -/
inductive Projection where
  | Perspective (fovy : ℝ)
  | Orthographic (view_width : ℝ)

/-- `Projection::is_orthographic`. -/
def Projection.is_orthographic : Projection → Bool
  | .Perspective _ => false
  | .Orthographic _ => true

/-- One FFI side effect performed by the wrapper, in order: the calls to
`ImGuizmo_SetDrawlist`, `ImGuizmo_SetOrthographic`, `ImGuizmo_SetRect`
and `ImGuizmo_Manipulate` (with the arguments the wrapper passes). -/
inductive Event where
  | setDrawList
  | setOrthographic (b : Bool)
  | setRect (x y width height : ℝ)
  | manipulateCall (view projection : Matrix4 ℝ) (op : Operation) (mode : Mode)
      (model : Matrix4 ℝ) (delta_matrix : Option (Matrix4 ℝ)) (snap : Option (Vec3 ℝ))
      (local_bounds : Option (Vec3 ℝ × Vec3 ℝ)) (bounds_snap : Option (Vec3 ℝ))

/-- `Gizmo::prepare_projection` (`src/imguizmo/src/lib.rs` lines
170-200): picks the rect (window rect after `set_draw_list` when
`windowed`, display rect otherwise), builds the projection matrix from
it, then calls `set_orthographic` and `set_rect`.  Returns the list of
FFI events in order, paired with the computed projection matrix. -/
noncomputable def prepare_projection (ui : Ui) (windowed : Bool) (proj : Projection) :
    List Event × Matrix4 ℝ :=
  let pre : List Event × Rect :=
    if windowed then ([Event.setDrawList], Rect.from_window ui)
    else ([], Rect.from_display ui)
  let rect := pre.2
  let projection :=
    match proj with
    | .Perspective fovy =>
        let aspect_ratio := rect.width / rect.height
        perspective fovy aspect_ratio 0.1 100.0
    | .Orthographic view_width =>
        let width := rect.width
        let height := rect.height
        let view_height := view_width * height / width
        orthographicR (-view_width) view_width (-view_height) view_height
          (-view_width) view_width
  (pre.1 ++ [Event.setOrthographic proj.is_orthographic,
             Event.setRect rect.x rect.y rect.width rect.height],
   projection)

/-- The `Builder` struct (`src/imguizmo/src/lib.rs` lines 375-387); the
`gizmo` reference is represented by the `Ui` data it wraps, and the
matrix/vector references by their values. -/
structure Builder where
  ui : Ui
  view : Matrix4 ℝ
  model : Matrix4 ℝ
  projection : Projection
  operation : Operation
  windowed : Bool
  mode : Mode
  delta_matrix : Option (Matrix4 ℝ)
  snap : Option (Vec3 ℝ)
  local_bounds : Option (Vec3 ℝ × Vec3 ℝ)
  bounds_snap : Option (Vec3 ℝ)

/-- `Builder::new` (`src/imguizmo/src/lib.rs` lines 390-408). -/
def Builder.new (ui : Ui) (view model : Matrix4 ℝ) : Builder where
  ui := ui
  view := view
  model := model
  projection := .Perspective 45
  operation := .Rotate
  windowed := false
  mode := .Local
  delta_matrix := none
  snap := none
  local_bounds := none
  bounds_snap := none

/-- `Builder::with_projection`. -/
def Builder.with_projection (b : Builder) (projection : Projection) : Builder :=
  { b with projection := projection }

/-- `Builder::with_operation`. -/
def Builder.with_operation (b : Builder) (operation : Operation) : Builder :=
  { b with operation := operation }

/-- `Builder::with_windowed`. -/
def Builder.with_windowed (b : Builder) (windowed : Bool) : Builder :=
  { b with windowed := windowed }

/-- `Builder::with_mode`. -/
def Builder.with_mode (b : Builder) (mode : Mode) : Builder :=
  { b with mode := mode }

/-- `Builder::with_delta_matrix` (the `Into<Option<..>>` argument taken
already converted to an option). -/
def Builder.with_delta_matrix (b : Builder) (delta_matrix : Option (Matrix4 ℝ)) : Builder :=
  { b with delta_matrix := delta_matrix }

/-- `Builder::with_snap`. -/
def Builder.with_snap (b : Builder) (snap : Option (Vec3 ℝ)) : Builder :=
  { b with snap := snap }

/-- `Builder::with_local_bounds`. -/
def Builder.with_local_bounds (b : Builder) (local_bounds : Option (Vec3 ℝ × Vec3 ℝ)) :
    Builder :=
  { b with local_bounds := local_bounds }

/-- `Builder::with_bounds_snap`. -/
def Builder.with_bounds_snap (b : Builder) (bounds_snap : Option (Vec3 ℝ)) : Builder :=
  { b with bounds_snap := bounds_snap }

/-- `Builder::manipulate` (`src/imguizmo/src/lib.rs` lines 460-476):
`prepare_projection` followed by the single `manipulate` FFI call, as
the ordered list of FFI events. -/
noncomputable def Builder.manipulate (b : Builder) : List Event :=
  let pr := prepare_projection b.ui b.windowed b.projection
  pr.1 ++ [Event.manipulateCall b.view pr.2 b.operation b.mode b.model
            b.delta_matrix b.snap b.local_bounds b.bounds_snap]

/-- The result of one native `ImGuizmo_Manipulate` call: the model
matrix after the call, and the boolean the native function returns. -/
structure EngineResult where
  model : Matrix4 ℝ
  modified : Bool

/-- The native manipulation engine (not part of this crate), abstracted
as a function of the arguments the wrapper forwards to it. -/
def Engine : Type :=
  Matrix4 ℝ → Matrix4 ℝ → Operation → Mode → Matrix4 ℝ → Option (Matrix4 ℝ) →
    Option (Vec3 ℝ) → Option (Vec3 ℝ × Vec3 ℝ) → Option (Vec3 ℝ) → EngineResult

/-- The free function `manipulate` (`src/imguizmo/src/lib.rs` lines
308-337), to which `Gizmo::manipulate` delegates: it forwards every
argument to the native call and returns `()`.  The result is the model
matrix after the call (the in-place mutation) paired with the wrapper's
return value; the boolean returned by the native call is discarded. -/
def manipulate (engine : Engine) (view projection : Matrix4 ℝ) (operation : Operation)
    (mode : Mode) (model : Matrix4 ℝ) (delta_matrix : Option (Matrix4 ℝ))
    (snap : Option (Vec3 ℝ)) (local_bounds : Option (Vec3 ℝ × Vec3 ℝ))
    (bounds_snap : Option (Vec3 ℝ)) : Matrix4 ℝ × Unit :=
  ((engine view projection operation mode model delta_matrix snap local_bounds
      bounds_snap).model, ())

/-- 3x3 real matrices, row-major, row-vector convention (as in the
native engine's `matrix_t` basis block). -/
def Mat3 : Type := Fin 3 → Fin 3 → ℝ

/-- Row-major matrix product: `(a*b) i j = Σ k, a i k * b k j`. -/
noncomputable def matMul3 (a b : Mat3) : Mat3 :=
  fun i j => a i 0 * b 0 j + a i 1 * b 1 j + a i 2 * b 2 j

/-- Rotation by `a` radians about the x axis, row-vector convention. -/
noncomputable def rotX (a : ℝ) : Mat3 :=
  ![![1, 0, 0],
    ![0, Real.cos a, Real.sin a],
    ![0, -Real.sin a, Real.cos a]]

/-- Rotation by `a` radians about the y axis, row-vector convention. -/
noncomputable def rotY (a : ℝ) : Mat3 :=
  ![![Real.cos a, 0, -Real.sin a],
    ![0, 1, 0],
    ![Real.sin a, 0, Real.cos a]]

/-- Rotation by `a` radians about the z axis, row-vector convention. -/
noncomputable def rotZ (a : ℝ) : Mat3 :=
  ![![Real.cos a, Real.sin a, 0],
    ![-Real.sin a, Real.cos a, 0],
    ![0, 0, 1]]

/-- Degrees to radians. -/
noncomputable def deg2rad (d : ℝ) : ℝ := d * (Real.pi / 180)

/-- Radians to degrees. -/
noncomputable def rad2deg (r : ℝ) : ℝ := r * (180 / Real.pi)

/-- The two-argument arctangent `atan2 y x` (standard definition by
cases on the quadrant). -/
noncomputable def atan2 (y x : ℝ) : ℝ :=
  if 0 < x then Real.arctan (y / x)
  else if x < 0 then
    (if 0 ≤ y then Real.arctan (y / x) + Real.pi else Real.arctan (y / x) - Real.pi)
  else
    (if 0 < y then Real.pi / 2 else if y < 0 then -(Real.pi / 2) else 0)

/-- Euclidean length of a 3-vector. -/
noncomputable def len3 (x y z : ℝ) : ℝ := Real.sqrt (x * x + y * y + z * z)

/-- Modelled from the spec: the native engine's
`RecomposeMatrixFromComponents`, reached through FFI from
`recompose_matrix_from_components` (`src/imguizmo/src/lib.rs` lines
249-258); its body is not under `src/`.  Per the spec it rebuilds the
matrix from a translation, an Euler-angle rotation given in degrees, and
a per-axis scale; the Euler convention (row-vector rotations about x,
then y, then z) instantiates the spec's requirement that the recompose
order match the decompose extraction order exactly. -/
noncomputable def recompose_matrix_from_components (translation rotation scale : Vec3 ℝ) :
    Matrix4 ℝ :=
  let rot := matMul3 (rotX (deg2rad rotation.1))
    (matMul3 (rotY (deg2rad rotation.2.1)) (rotZ (deg2rad rotation.2.2)))
  ![![scale.1 * rot 0 0, scale.1 * rot 0 1, scale.1 * rot 0 2, 0],
    ![scale.2.1 * rot 1 0, scale.2.1 * rot 1 1, scale.2.1 * rot 1 2, 0],
    ![scale.2.2 * rot 2 0, scale.2.2 * rot 2 1, scale.2.2 * rot 2 2, 0],
    ![translation.1, translation.2.1, translation.2.2, 1]]

/-- Modelled from the spec: the native engine's
`DecomposeMatrixToComponents`, reached through FFI from
`decompose_matrix_to_components` (`src/imguizmo/src/lib.rs` lines
237-246); its body is not under `src/`.  Per the spec it extracts the
per-axis scale as the lengths of the basis rows, the translation from
the position row, and the Euler-angle rotation in degrees from the
normalized basis rows, in the order matching `recompose`. -/
noncomputable def decompose_matrix_to_components (m : Matrix4 ℝ) :
    Vec3 ℝ × Vec3 ℝ × Vec3 ℝ :=
  let s0 := len3 (m 0 0) (m 0 1) (m 0 2)
  let s1 := len3 (m 1 0) (m 1 1) (m 1 2)
  let s2 := len3 (m 2 0) (m 2 1) (m 2 2)
  let n00 := m 0 0 / s0
  let n01 := m 0 1 / s0
  let n02 := m 0 2 / s0
  let n12 := m 1 2 / s1
  let n22 := m 2 2 / s2
  ((m 3 0, m 3 1, m 3 2),
   (rad2deg (atan2 n12 n22),
    rad2deg (atan2 (-n02) (Real.sqrt (n12 * n12 + n22 * n22))),
    rad2deg (atan2 n01 n00)),
   (s0, s1, s2))

/-- The projection matrix the spec says is derived from a viewport
rect: a perspective matrix from the rect's aspect ratio for
`Perspective`, a symmetric orthographic box from `view_width` and the
rect's aspect for `Orthographic`.  Written from the spec's description,
to be compared with what `prepare_projection` computes. -/
noncomputable def projectionFromRect (proj : Projection) (rect : Rect) : Matrix4 ℝ :=
  match proj with
  | .Perspective fovy => perspective fovy (rect.width / rect.height) 0.1 100.0
  | .Orthographic view_width =>
      let view_height := view_width * rect.height / rect.width
      orthographicR (-view_width) view_width (-view_height) view_height
        (-view_width) view_width

/-- The identity matrix, a concrete model-matrix input. -/
def idMat : Matrix4 ℝ := fun i j => if i = j then 1 else 0

/-- A native-engine run that leaves the model unchanged and reports
`false`. -/
def engineUnchanged : Engine := fun _ _ _ _ model _ _ _ _ => ⟨model, false⟩

/-- A native-engine run that replaces the model with the zero matrix and
reports `true`. -/
def engineWrites : Engine := fun _ _ _ _ _ _ _ _ _ => ⟨fun _ _ => 0, true⟩

/-- C6: a newly constructed `Builder` has exactly the documented
defaults: projection `Perspective` with fovy 45 degrees, operation
`Rotate`, mode `Local`, `windowed = false`, and the four optional fields
all `none`. -/
theorem builder_new_defaults (ui : Ui) (view model : Matrix4 ℝ) :
    (Builder.new ui view model).projection = Projection.Perspective 45 ∧
    (Builder.new ui view model).operation = Operation.Rotate ∧
    (Builder.new ui view model).mode = Mode.Local ∧
    (Builder.new ui view model).windowed = false ∧
    (Builder.new ui view model).delta_matrix = none ∧
    (Builder.new ui view model).snap = none ∧
    (Builder.new ui view model).local_bounds = none ∧
    (Builder.new ui view model).bounds_snap = none :=
  ⟨rfl, rfl, rfl, rfl, rfl, rfl, rfl, rfl⟩

/-- C10: each `Builder::with_*` method replaces exactly its one named
field with the argument and leaves every other field of the receiver
unchanged. -/
theorem builder_with_methods_replace_one_field (b : Builder) (p : Projection)
    (op : Operation) (w : Bool) (md : Mode) (dm : Option (Matrix4 ℝ))
    (sn : Option (Vec3 ℝ)) (lb : Option (Vec3 ℝ × Vec3 ℝ)) (bs : Option (Vec3 ℝ)) :
    ((b.with_projection p).projection = p ∧ (b.with_projection p).ui = b.ui ∧
      (b.with_projection p).view = b.view ∧ (b.with_projection p).model = b.model ∧
      (b.with_projection p).operation = b.operation ∧
      (b.with_projection p).windowed = b.windowed ∧ (b.with_projection p).mode = b.mode ∧
      (b.with_projection p).delta_matrix = b.delta_matrix ∧
      (b.with_projection p).snap = b.snap ∧
      (b.with_projection p).local_bounds = b.local_bounds ∧
      (b.with_projection p).bounds_snap = b.bounds_snap) ∧
    ((b.with_operation op).operation = op ∧ (b.with_operation op).ui = b.ui ∧
      (b.with_operation op).view = b.view ∧ (b.with_operation op).model = b.model ∧
      (b.with_operation op).projection = b.projection ∧
      (b.with_operation op).windowed = b.windowed ∧ (b.with_operation op).mode = b.mode ∧
      (b.with_operation op).delta_matrix = b.delta_matrix ∧
      (b.with_operation op).snap = b.snap ∧
      (b.with_operation op).local_bounds = b.local_bounds ∧
      (b.with_operation op).bounds_snap = b.bounds_snap) ∧
    ((b.with_windowed w).windowed = w ∧ (b.with_windowed w).ui = b.ui ∧
      (b.with_windowed w).view = b.view ∧ (b.with_windowed w).model = b.model ∧
      (b.with_windowed w).projection = b.projection ∧
      (b.with_windowed w).operation = b.operation ∧ (b.with_windowed w).mode = b.mode ∧
      (b.with_windowed w).delta_matrix = b.delta_matrix ∧
      (b.with_windowed w).snap = b.snap ∧
      (b.with_windowed w).local_bounds = b.local_bounds ∧
      (b.with_windowed w).bounds_snap = b.bounds_snap) ∧
    ((b.with_mode md).mode = md ∧ (b.with_mode md).ui = b.ui ∧
      (b.with_mode md).view = b.view ∧ (b.with_mode md).model = b.model ∧
      (b.with_mode md).projection = b.projection ∧
      (b.with_mode md).operation = b.operation ∧
      (b.with_mode md).windowed = b.windowed ∧
      (b.with_mode md).delta_matrix = b.delta_matrix ∧
      (b.with_mode md).snap = b.snap ∧
      (b.with_mode md).local_bounds = b.local_bounds ∧
      (b.with_mode md).bounds_snap = b.bounds_snap) ∧
    ((b.with_delta_matrix dm).delta_matrix = dm ∧ (b.with_delta_matrix dm).ui = b.ui ∧
      (b.with_delta_matrix dm).view = b.view ∧ (b.with_delta_matrix dm).model = b.model ∧
      (b.with_delta_matrix dm).projection = b.projection ∧
      (b.with_delta_matrix dm).operation = b.operation ∧
      (b.with_delta_matrix dm).windowed = b.windowed ∧
      (b.with_delta_matrix dm).mode = b.mode ∧
      (b.with_delta_matrix dm).snap = b.snap ∧
      (b.with_delta_matrix dm).local_bounds = b.local_bounds ∧
      (b.with_delta_matrix dm).bounds_snap = b.bounds_snap) ∧
    ((b.with_snap sn).snap = sn ∧ (b.with_snap sn).ui = b.ui ∧
      (b.with_snap sn).view = b.view ∧ (b.with_snap sn).model = b.model ∧
      (b.with_snap sn).projection = b.projection ∧
      (b.with_snap sn).operation = b.operation ∧
      (b.with_snap sn).windowed = b.windowed ∧ (b.with_snap sn).mode = b.mode ∧
      (b.with_snap sn).delta_matrix = b.delta_matrix ∧
      (b.with_snap sn).local_bounds = b.local_bounds ∧
      (b.with_snap sn).bounds_snap = b.bounds_snap) ∧
    ((b.with_local_bounds lb).local_bounds = lb ∧ (b.with_local_bounds lb).ui = b.ui ∧
      (b.with_local_bounds lb).view = b.view ∧ (b.with_local_bounds lb).model = b.model ∧
      (b.with_local_bounds lb).projection = b.projection ∧
      (b.with_local_bounds lb).operation = b.operation ∧
      (b.with_local_bounds lb).windowed = b.windowed ∧
      (b.with_local_bounds lb).mode = b.mode ∧
      (b.with_local_bounds lb).delta_matrix = b.delta_matrix ∧
      (b.with_local_bounds lb).snap = b.snap ∧
      (b.with_local_bounds lb).bounds_snap = b.bounds_snap) ∧
    ((b.with_bounds_snap bs).bounds_snap = bs ∧ (b.with_bounds_snap bs).ui = b.ui ∧
      (b.with_bounds_snap bs).view = b.view ∧ (b.with_bounds_snap bs).model = b.model ∧
      (b.with_bounds_snap bs).projection = b.projection ∧
      (b.with_bounds_snap bs).operation = b.operation ∧
      (b.with_bounds_snap bs).windowed = b.windowed ∧
      (b.with_bounds_snap bs).mode = b.mode ∧
      (b.with_bounds_snap bs).delta_matrix = b.delta_matrix ∧
      (b.with_bounds_snap bs).snap = b.snap ∧
      (b.with_bounds_snap bs).local_bounds = b.local_bounds) :=
  ⟨⟨rfl, rfl, rfl, rfl, rfl, rfl, rfl, rfl, rfl, rfl, rfl⟩,
   ⟨rfl, rfl, rfl, rfl, rfl, rfl, rfl, rfl, rfl, rfl, rfl⟩,
   ⟨rfl, rfl, rfl, rfl, rfl, rfl, rfl, rfl, rfl, rfl, rfl⟩,
   ⟨rfl, rfl, rfl, rfl, rfl, rfl, rfl, rfl, rfl, rfl, rfl⟩,
   ⟨rfl, rfl, rfl, rfl, rfl, rfl, rfl, rfl, rfl, rfl, rfl⟩,
   ⟨rfl, rfl, rfl, rfl, rfl, rfl, rfl, rfl, rfl, rfl, rfl⟩,
   ⟨rfl, rfl, rfl, rfl, rfl, rfl, rfl, rfl, rfl, rfl, rfl⟩,
   ⟨rfl, rfl, rfl, rfl, rfl, rfl, rfl, rfl, rfl, rfl, rfl⟩⟩

/-- C9: `prepare_projection` hardcodes the clip planes: perspective
projections always use `znear = 0.1` and `zfar = 100.0`, and
orthographic projections always use `znear = -view_width` and
`zfar = view_width`, with vertical half-extent
`view_width * rect.height / rect.width`. -/
theorem prepare_projection_hardcoded_planes (ui : Ui) (windowed : Bool) :
    (∀ fovy : ℝ,
      (prepare_projection ui windowed (Projection.Perspective fovy)).2 =
        perspective fovy
          ((if windowed then Rect.from_window ui else Rect.from_display ui).width /
            (if windowed then Rect.from_window ui else Rect.from_display ui).height)
          0.1 100.0) ∧
    (∀ view_width : ℝ,
      (prepare_projection ui windowed (Projection.Orthographic view_width)).2 =
        orthographicR (-view_width) view_width
          (-(view_width *
              (if windowed then Rect.from_window ui else Rect.from_display ui).height /
              (if windowed then Rect.from_window ui else Rect.from_display ui).width))
          (view_width *
            (if windowed then Rect.from_window ui else Rect.from_display ui).height /
            (if windowed then Rect.from_window ui else Rect.from_display ui).width)
          (-view_width) view_width) := by
  refine ⟨fun fovy => ?_, fun view_width => ?_⟩ <;> cases windowed <;> rfl

/-- C5: `Builder::manipulate` emits, in order: when windowed, the
draw-list redirection and the window rect; otherwise the display rect;
then the orthographic flag matching the projection variant, the rect,
and the single manipulate call whose projection matrix is derived from
that same rect. -/
theorem builder_manipulate_trace (b : Builder) :
    Builder.manipulate b =
      if b.windowed then
        [Event.setDrawList,
         Event.setOrthographic b.projection.is_orthographic,
         Event.setRect (Rect.from_window b.ui).x (Rect.from_window b.ui).y
           (Rect.from_window b.ui).width (Rect.from_window b.ui).height,
         Event.manipulateCall b.view
           (projectionFromRect b.projection (Rect.from_window b.ui)) b.operation b.mode
           b.model b.delta_matrix b.snap b.local_bounds b.bounds_snap]
      else
        [Event.setOrthographic b.projection.is_orthographic,
         Event.setRect (Rect.from_display b.ui).x (Rect.from_display b.ui).y
           (Rect.from_display b.ui).width (Rect.from_display b.ui).height,
         Event.manipulateCall b.view
           (projectionFromRect b.projection (Rect.from_display b.ui)) b.operation b.mode
           b.model b.delta_matrix b.snap b.local_bounds b.bounds_snap] := by
  rcases b with ⟨ui, view, model, proj, op, w, mode, dm, sn, lb, bs⟩
  cases w <;> cases proj <;> rfl

/-- C2 (amended): `perspective` derives the vertical half-extent as
`znear * tan(fovy·π/180)` — the tangent of the full converted angle, not
of its half — the horizontal half-extent as that times the aspect ratio,
and returns exactly `frustum(-xmax, xmax, -ymax, ymax, znear, zfar)`. -/
theorem perspective_full_angle_frustum (fovy_degrees aspect_ratio znear zfar : ℝ) :
    perspective fovy_degrees aspect_ratio znear zfar =
      frustumR (-(znear * Real.tan (fovy_degrees * Real.pi / 180) * aspect_ratio))
        (znear * Real.tan (fovy_degrees * Real.pi / 180) * aspect_ratio)
        (-(znear * Real.tan (fovy_degrees * Real.pi / 180)))
        (znear * Real.tan (fovy_degrees * Real.pi / 180)) znear zfar := rfl

/-- C2 counterexample: at `fovy = 45`, `aspect = 1`, `znear = 1`,
`zfar = 2`, the matrix `perspective` returns differs from the half-angle
matrix the claim describes (their `m[1][1]` entries are `1/tan(π/4)` and
`1/tan(π/8)`). -/
theorem perspective_not_half_angle :
    perspective 45 1 1 2 ≠ perspectiveSpecHalfAngle 45 1 1 2 := by
  intro h
  have h11 := congrFun (congrFun h 1) 1
  have e1 : (45 : ℝ) * Real.pi / 180 = Real.pi / 4 := by ring
  have e2 : (45 : ℝ) * Real.pi / 180 / 2 = Real.pi / 8 := by ring
  simp only [perspective, perspectiveSpecHalfAngle, frustumR, Matrix.cons_val_one,
    Matrix.head_cons, one_mul, mul_one, sub_neg_eq_add] at h11
  rw [e2, e1, Real.tan_pi_div_four] at h11
  have hpi8 : Real.pi / 8 < Real.pi / 2 := by linarith [Real.pi_pos]
  have hpos : 0 < Real.tan (Real.pi / 8) :=
    Real.tan_pos_of_pos_of_lt_pi_div_two (by positivity) hpi8
  have hlt : Real.tan (Real.pi / 8) < 1 := by
    rw [← Real.tan_pi_div_four]
    exact Real.tan_lt_tan_of_lt_of_lt_pi_div_two (by linarith [Real.pi_pos])
      (by linarith [Real.pi_pos]) (by linarith [Real.pi_pos])
  have hne : Real.tan (Real.pi / 8) + Real.tan (Real.pi / 8) ≠ 0 := by linarith
  rw [div_eq_div_iff (by norm_num) hne] at h11
  linarith

/-- C1 counterexample: two native-engine runs on the same concrete
arguments, one of which modifies the model matrix while the other leaves
it unchanged, give the same wrapper return value `()`; hence the
wrapper's return carries no boolean that is true exactly when the model
was modified. -/
theorem manipulate_no_modified_flag :
    (manipulate engineWrites idMat idMat Operation.Translate Mode.Local idMat
        none none none none).2 =
      (manipulate engineUnchanged idMat idMat Operation.Translate Mode.Local idMat
        none none none none).2 ∧
    (manipulate engineWrites idMat idMat Operation.Translate Mode.Local idMat
        none none none none).1 ≠ idMat ∧
    (manipulate engineUnchanged idMat idMat Operation.Translate Mode.Local idMat
        none none none none).1 = idMat ∧
    ¬∃ flag : Unit → Bool,
      flag (manipulate engineWrites idMat idMat Operation.Translate Mode.Local idMat
          none none none none).2 = true ∧
      flag (manipulate engineUnchanged idMat idMat Operation.Translate Mode.Local idMat
          none none none none).2 = false := by
  refine ⟨rfl, ?_, rfl, ?_⟩
  · intro h
    have h00 := congrFun (congrFun h 0) 0
    simp [manipulate, engineWrites, idMat] at h00
  · rintro ⟨flag, htrue, hfalse⟩
    rw [htrue] at hfalse
    exact Bool.noConfusion hfalse

/-- C1 (amended): the wrapper `manipulate` (and `Gizmo::manipulate`,
which delegates to it) returns the unit value — the boolean produced by
the native call is discarded — while the model matrix becomes whatever
the native engine produced from the forwarded arguments. -/
theorem manipulate_returns_unit (engine : Engine) (view projection : Matrix4 ℝ)
    (operation : Operation) (mode : Mode) (model : Matrix4 ℝ)
    (delta_matrix : Option (Matrix4 ℝ)) (snap : Option (Vec3 ℝ))
    (local_bounds : Option (Vec3 ℝ × Vec3 ℝ)) (bounds_snap : Option (Vec3 ℝ)) :
    (manipulate engine view projection operation mode model delta_matrix snap
        local_bounds bounds_snap).2 = () ∧
    (manipulate engine view projection operation mode model delta_matrix snap
        local_bounds bounds_snap).1 =
      (engine view projection operation mode model delta_matrix snap local_bounds
        bounds_snap).model :=
  ⟨rfl, rfl⟩

/-- Componentwise addition of 3-D points. -/
def add3 (a b : Vec3 ℚ) : Vec3 ℚ := (a.1 + b.1, a.2.1 + b.2.1, a.2.2 + b.2.2)

/-- Componentwise subtraction of 3-D points. -/
def sub3 (a b : Vec3 ℚ) : Vec3 ℚ := (a.1 - b.1, a.2.1 - b.2.1, a.2.2 - b.2.2)

theorem Fq.fin_add (a b : ℚ) : Fq.fin a + Fq.fin b = Fq.fin (a + b) := rfl

theorem Fq.fin_neg (a : ℚ) : -Fq.fin a = Fq.fin (-a) := rfl

theorem Fq.fin_sub (a b : ℚ) : Fq.fin a - Fq.fin b = Fq.fin (a - b) := by
  show Fq.fin (a + -b) = Fq.fin (a - b)
  rw [← sub_eq_add_neg]

theorem Fq.fin_mul (a b : ℚ) : Fq.fin a * Fq.fin b = Fq.fin (a * b) := rfl

/-- A finite value divided by a finite zero is never finite (it is an
infinity, or NaN for `0/0`). -/
theorem Fq.isFinite_fin_div_zero (x : ℚ) : (Fq.fin x / Fq.fin 0).isFinite = false := by
  show (Fq.div (Fq.fin x) (Fq.fin 0)).isFinite = false
  simp only [Fq.div, if_pos rfl]
  split_ifs <;> rfl

/-- Division of finite values with a nonzero denominator is exact. -/
theorem Fq.fin_div_ne (x d : ℚ) (hd : d ≠ 0) : Fq.fin x / Fq.fin d = Fq.fin (x / d) := by
  show Fq.div (Fq.fin x) (Fq.fin d) = _
  simp [Fq.div, hd]

theorem Fq.isFinite_fin_div (x d : ℚ) (hd : d ≠ 0) :
    (Fq.fin x / Fq.fin d).isFinite = true := by
  rw [Fq.fin_div_ne x d hd]; rfl

/-- C4: `frustum` is a total function (the model returns a matrix for
all inputs); on a degenerate extent (`right = left`, `top = bottom` or
`zfar = znear`) the affected entries are non-finite (infinity or NaN)
because of the division by zero, and with finite inputs and
non-degenerate extents every entry of the result is finite. -/
theorem frustum_total_and_finite (l r b t n f : ℚ) :
    (r = l →
      (frustumF (.fin l) (.fin r) (.fin b) (.fin t) (.fin n) (.fin f) 0 0).isFinite =
        false ∧
      (frustumF (.fin l) (.fin r) (.fin b) (.fin t) (.fin n) (.fin f) 2 0).isFinite =
        false) ∧
    (t = b →
      (frustumF (.fin l) (.fin r) (.fin b) (.fin t) (.fin n) (.fin f) 1 1).isFinite =
        false ∧
      (frustumF (.fin l) (.fin r) (.fin b) (.fin t) (.fin n) (.fin f) 2 1).isFinite =
        false) ∧
    (f = n →
      (frustumF (.fin l) (.fin r) (.fin b) (.fin t) (.fin n) (.fin f) 2 2).isFinite =
        false ∧
      (frustumF (.fin l) (.fin r) (.fin b) (.fin t) (.fin n) (.fin f) 3 2).isFinite =
        false) ∧
    (r ≠ l → t ≠ b → f ≠ n → ∀ i j,
      (frustumF (.fin l) (.fin r) (.fin b) (.fin t) (.fin n) (.fin f) i j).isFinite =
        true) := by
  refine ⟨fun hrl => ?_, fun htb => ?_, fun hfn => ?_, fun h1 h2 h3 i j => ?_⟩
  · constructor <;>
    · simp only [frustumF, Matrix.cons_val_zero, Matrix.cons_val_one, Matrix.cons_val_two,
        Matrix.cons_val_three, Matrix.head_cons, Matrix.tail_cons, Fq.fin_mul, Fq.fin_sub,
        Fq.fin_add, Fq.fin_neg, hrl, sub_self]
      exact Fq.isFinite_fin_div_zero _
  · constructor <;>
    · simp only [frustumF, Matrix.cons_val_zero, Matrix.cons_val_one, Matrix.cons_val_two,
        Matrix.cons_val_three, Matrix.head_cons, Matrix.tail_cons, Fq.fin_mul, Fq.fin_sub,
        Fq.fin_add, Fq.fin_neg, htb, sub_self]
      exact Fq.isFinite_fin_div_zero _
  · constructor <;>
    · simp only [frustumF, Matrix.cons_val_zero, Matrix.cons_val_one, Matrix.cons_val_two,
        Matrix.cons_val_three, Matrix.head_cons, Matrix.tail_cons, Fq.fin_mul, Fq.fin_sub,
        Fq.fin_add, Fq.fin_neg, hfn, sub_self]
      exact Fq.isFinite_fin_div_zero _
  · have d1 : r - l ≠ 0 := sub_ne_zero.mpr h1
    have d2 : t - b ≠ 0 := sub_ne_zero.mpr h2
    have d3 : f - n ≠ 0 := sub_ne_zero.mpr h3
    fin_cases i <;> fin_cases j <;>
      simp [frustumF, Fq.fin_mul, Fq.fin_sub, Fq.fin_add, Fq.fin_neg,
        Fq.fin_div_ne _ _ d1, Fq.fin_div_ne _ _ d2, Fq.fin_div_ne _ _ d3, Fq.isFinite]

/-- C4 witness: at `(l,r,b,t,n,f) = (0,1,0,1,1,2)` all entries are
finite, and at the degenerate `(0,0,0,1,1,2)` the `m[0][0]` entry is
non-finite. -/
theorem frustum_total_and_finite_witness :
    ((1 : ℚ) ≠ 0 ∧ (1 : ℚ) ≠ 0 ∧ (2 : ℚ) ≠ 1) ∧
    (frustumF (.fin 0) (.fin 1) (.fin 0) (.fin 1) (.fin 1) (.fin 2) 0 0).isFinite =
      true ∧
    (frustumF (.fin 0) (.fin 0) (.fin 0) (.fin 1) (.fin 1) (.fin 2) 0 0).isFinite =
      false :=
  ⟨⟨by norm_num, by norm_num, by norm_num⟩,
   (frustum_total_and_finite 0 1 0 1 1 2).2.2.2 (by norm_num) (by norm_num)
     (by norm_num) 0 0,
   ((frustum_total_and_finite 0 0 0 1 1 2).1 rfl).1⟩

/-- C7: for non-degenerate extents the orthographic matrix is affine:
its `m[0][3]`, `m[1][3]`, `m[2][3]` entries are `0` and `m[3][3]` is
`1`, the output homogeneous `w` component equals the input `w`
component, and the induced point map preserves parallel lines (the
difference of the images of two points at a fixed offset does not depend
on the base point). -/
theorem orthographic_affine (l r b t n f : ℚ) (hrl : r ≠ l) (htb : t ≠ b) (hfn : f ≠ n) :
    (orthographicQ l r b t n f 0 3 = 0 ∧ orthographicQ l r b t n f 1 3 = 0 ∧
      orthographicQ l r b t n f 2 3 = 0 ∧ orthographicQ l r b t n f 3 3 = 1) ∧
    (∀ v : Vec4 ℚ, mulVec4 (orthographicQ l r b t n f) v 3 = v 3) ∧
    (∀ p q d : Vec3 ℚ,
      sub3 (pointMap (orthographicQ l r b t n f) (add3 p d))
          (pointMap (orthographicQ l r b t n f) p) =
        sub3 (pointMap (orthographicQ l r b t n f) (add3 q d))
          (pointMap (orthographicQ l r b t n f) q)) := by
  refine ⟨⟨rfl, rfl, rfl, rfl⟩, fun v => ?_, fun p q d => ?_⟩
  · simp [mulVec4, orthographicQ, Matrix.cons_val_zero, Matrix.cons_val_one,
      Matrix.cons_val_two, Matrix.cons_val_three, Matrix.head_cons, Matrix.tail_cons]
  · refine Prod.ext ?_ (Prod.ext ?_ ?_) <;>
      simp [pointMap, mulVec4, orthographicQ, add3, sub3, Matrix.cons_val_zero,
        Matrix.cons_val_one, Matrix.cons_val_two, Matrix.cons_val_three, Matrix.head_cons,
        Matrix.tail_cons] <;> ring

/-- C7 witness: the affine properties at the concrete non-degenerate
extents `(0,1,0,1,0,1)`, an input vector and base points. -/
theorem orthographic_affine_witness :
    ((1 : ℚ) ≠ 0 ∧ (1 : ℚ) ≠ 0 ∧ (1 : ℚ) ≠ 0) ∧
    orthographicQ 0 1 0 1 0 1 3 3 = 1 ∧
    mulVec4 (orthographicQ 0 1 0 1 0 1) ![5, 6, 7, 8] 3 = 8 ∧
    sub3 (pointMap (orthographicQ 0 1 0 1 0 1) (add3 (1, 2, 3) (4, 5, 6)))
        (pointMap (orthographicQ 0 1 0 1 0 1) (1, 2, 3)) =
      sub3 (pointMap (orthographicQ 0 1 0 1 0 1) (add3 (7, 8, 9) (4, 5, 6)))
        (pointMap (orthographicQ 0 1 0 1 0 1) (7, 8, 9)) := by
  have h := orthographic_affine 0 1 0 1 0 1 (by norm_num) (by norm_num) (by norm_num)
  exact ⟨⟨by norm_num, by norm_num, by norm_num⟩, h.1.2.2.2,
    by rw [h.2.1 ![5, 6, 7, 8]]; rfl, h.2.2 (1, 2, 3) (7, 8, 9) (4, 5, 6)⟩

/-- C8: applying the `perspective` matrix to the homogeneous view-space
point `(0, 0, -near, 1)` with `0 < near < far` yields the point
`(0, 0, -near, near)`, whose post-division depth `z/w` is the canonical
near-plane value `-1` (all values are exact reals in this model, hence
finite). -/
theorem perspective_near_plane (fovy aspect near far : ℝ) (h0 : 0 < near)
    (hnf : near < far) :
    mulVec4 (perspective fovy aspect near far) ![0, 0, -near, 1] 0 = 0 ∧
    mulVec4 (perspective fovy aspect near far) ![0, 0, -near, 1] 1 = 0 ∧
    mulVec4 (perspective fovy aspect near far) ![0, 0, -near, 1] 2 = -near ∧
    mulVec4 (perspective fovy aspect near far) ![0, 0, -near, 1] 3 = near ∧
    mulVec4 (perspective fovy aspect near far) ![0, 0, -near, 1] 2 /
      mulVec4 (perspective fovy aspect near far) ![0, 0, -near, 1] 3 = -1 := by
  have hfn : far - near ≠ 0 := sub_ne_zero.mpr (ne_of_gt hnf)
  have hn : near ≠ 0 := ne_of_gt h0
  have e0 : mulVec4 (perspective fovy aspect near far) ![0, 0, -near, 1] 0 = 0 := by
    simp only [mulVec4, perspective, frustumR]
    simp only [Matrix.cons_val_zero, Matrix.cons_val_one, Matrix.cons_val_two,
      Matrix.cons_val_three, Matrix.head_cons, Matrix.tail_cons]
    ring_nf
  have e1 : mulVec4 (perspective fovy aspect near far) ![0, 0, -near, 1] 1 = 0 := by
    simp only [mulVec4, perspective, frustumR]
    simp only [Matrix.cons_val_zero, Matrix.cons_val_one, Matrix.cons_val_two,
      Matrix.cons_val_three, Matrix.head_cons, Matrix.tail_cons]
    ring_nf
  have e2 : mulVec4 (perspective fovy aspect near far) ![0, 0, -near, 1] 2 = -near := by
    simp only [mulVec4, perspective, frustumR]
    simp only [Matrix.cons_val_zero, Matrix.cons_val_one, Matrix.cons_val_two,
      Matrix.cons_val_three, Matrix.head_cons, Matrix.tail_cons]
    field_simp
    ring
  have e3 : mulVec4 (perspective fovy aspect near far) ![0, 0, -near, 1] 3 = near := by
    simp only [mulVec4, perspective, frustumR]
    simp only [Matrix.cons_val_zero, Matrix.cons_val_one, Matrix.cons_val_two,
      Matrix.cons_val_three, Matrix.head_cons, Matrix.tail_cons]
    ring_nf
  refine ⟨e0, e1, e2, e3, ?_⟩
  rw [e2, e3, neg_div, div_self hn]

/-- C8 witness: the near-plane property at `fovy = 45`, `aspect = 1`,
`near = 1`, `far = 2`. -/
theorem perspective_near_plane_witness :
    (0 : ℝ) < 1 ∧ (1 : ℝ) < 2 ∧
    (mulVec4 (perspective 45 1 1 2) ![0, 0, -1, 1] 2 = -1 ∧
      mulVec4 (perspective 45 1 1 2) ![0, 0, -1, 1] 3 = 1) := by
  have h := perspective_near_plane 45 1 1 2 (by norm_num) (by norm_num)
  exact ⟨by norm_num, by norm_num, by simpa using h.2.2.1, by simpa using h.2.2.2.1⟩

/-- Converting degrees to radians and back is the identity. -/
theorem rad2deg_deg2rad (d : ℝ) : rad2deg (deg2rad d) = d := by
  unfold rad2deg deg2rad
  have := Real.pi_ne_zero
  field_simp

/-- `atan2` is invariant under scaling both arguments by a positive
factor. -/
theorem atan2_smul_right (y x k : ℝ) (hk : 0 < k) : atan2 (y * k) (x * k) = atan2 y x := by
  have hk0 : k ≠ 0 := ne_of_gt hk
  have hdiv : y * k / (x * k) = y / x := mul_div_mul_right y x hk0
  unfold atan2
  rcases lt_trichotomy x 0 with hx | rfl | hx
  · have h1 : x * k < 0 := mul_neg_of_neg_of_pos hx hk
    rcases le_or_lt 0 y with hy | hy
    · have h2 : 0 ≤ y * k := mul_nonneg hy hk.le
      simp only [if_neg (by linarith : ¬(0:ℝ) < x * k), if_neg (by linarith : ¬(0:ℝ) < x),
        if_pos h1, if_pos hx, if_pos h2, if_pos hy, hdiv]
    · have h2 : y * k < 0 := mul_neg_of_neg_of_pos hy hk
      simp only [if_neg (by linarith : ¬(0:ℝ) < x * k), if_neg (by linarith : ¬(0:ℝ) < x),
        if_pos h1, if_pos hx, if_neg (by linarith : ¬(0:ℝ) ≤ y * k),
        if_neg (by linarith : ¬(0:ℝ) ≤ y), hdiv]
  · simp only [zero_mul]
    simp only [if_neg (lt_irrefl (0:ℝ))]
    rcases lt_trichotomy y 0 with hy | rfl | hy
    · have h2 : y * k < 0 := mul_neg_of_neg_of_pos hy hk
      simp only [if_neg (by linarith : ¬(0:ℝ) < y * k), if_neg (by linarith : ¬(0:ℝ) < y),
        if_pos h2, if_pos hy]
    · simp
    · have h2 : 0 < y * k := mul_pos hy hk
      simp only [if_pos h2, if_pos hy]
  · have h1 : 0 < x * k := mul_pos hx hk
    simp only [if_pos h1, if_pos hx, hdiv]

/-- On the canonical range `(-π, π]`, `atan2` recovers the angle from
its sine and cosine. -/
theorem atan2_sin_cos {θ : ℝ} (h1 : -Real.pi < θ) (h2 : θ ≤ Real.pi) :
    atan2 (Real.sin θ) (Real.cos θ) = θ := by
  have hπ := Real.pi_pos
  unfold atan2
  rcases lt_trichotomy (Real.cos θ) 0 with hc | hc | hc
  · rw [if_neg (by linarith), if_pos hc]
    rcases le_or_lt 0 (Real.sin θ) with hs | hs
    · rw [if_pos hs]
      have hθl : Real.pi / 2 < θ := by
        by_contra hle
        push_neg at hle
        rcases le_or_lt (-(Real.pi / 2)) θ with hge | hlt
        · have : 0 ≤ Real.cos θ := Real.cos_nonneg_of_mem_Icc ⟨hge, hle⟩
          linarith
        · have : Real.sin θ < 0 := Real.sin_neg_of_neg_of_neg_pi_lt (by linarith) h1
          linarith
      have ht : Real.tan (θ - Real.pi) = Real.tan θ := Real.tan_periodic.sub_eq θ
      have harct : Real.arctan (Real.sin θ / Real.cos θ) = θ - Real.pi := by
        rw [← Real.tan_eq_sin_div_cos, ← ht,
          Real.arctan_tan (by linarith) (by linarith)]
      rw [harct]; ring
    · rw [if_neg (by linarith)]
      have hθu : θ < -(Real.pi / 2) := by
        by_contra hle
        push_neg at hle
        rcases le_or_lt θ (Real.pi / 2) with hle2 | hgt
        · have : 0 ≤ Real.cos θ := Real.cos_nonneg_of_mem_Icc ⟨hle, hle2⟩
          linarith
        · have : 0 ≤ Real.sin θ := Real.sin_nonneg_of_nonneg_of_le_pi (by linarith) h2
          linarith
      have ht : Real.tan (θ + Real.pi) = Real.tan θ := Real.tan_periodic θ
      have harct : Real.arctan (Real.sin θ / Real.cos θ) = θ + Real.pi := by
        rw [← Real.tan_eq_sin_div_cos, ← ht,
          Real.arctan_tan (by linarith) (by linarith)]
      rw [harct]; ring
  · rw [hc, if_neg (lt_irrefl (0:ℝ)), if_neg (lt_irrefl (0:ℝ))]
    obtain ⟨n, hn⟩ := Real.cos_eq_zero_iff.mp hc
    have hb1 : (-2 : ℤ) < 2 * n + 1 := by
      have hr : (-2 : ℝ) < 2 * (n : ℝ) + 1 := by
        rw [hn] at h1
        nlinarith
      exact_mod_cast hr
    have hb2 : (2 * n + 1 : ℤ) ≤ 2 := by
      have hr : (2 * (n : ℝ) + 1) ≤ 2 := by
        rw [hn] at h2
        nlinarith
      exact_mod_cast hr
    have hn01 : n = 0 ∨ n = -1 := by omega
    rcases hn01 with rfl | rfl
    · have hθ : θ = Real.pi / 2 := by rw [hn]; push_cast; ring
      subst hθ
      rw [Real.sin_pi_div_two, if_pos one_pos]
    · have hθ : θ = -(Real.pi / 2) := by rw [hn]; push_cast; ring
      subst hθ
      rw [Real.sin_neg, Real.sin_pi_div_two]
      rw [if_neg (by norm_num), if_pos (by norm_num)]
  · have hθl : -(Real.pi / 2) < θ := by
      by_contra hle
      push_neg at hle
      have : Real.cos θ ≤ 0 := by
        have hcn := Real.cos_nonpos_of_pi_div_two_le_of_le (x := -θ) (by linarith)
          (by linarith)
        rwa [Real.cos_neg] at hcn
      linarith
    have hθu : θ < Real.pi / 2 := by
      by_contra hle
      push_neg at hle
      have : Real.cos θ ≤ 0 :=
        Real.cos_nonpos_of_pi_div_two_le_of_le hle (by linarith)
      linarith
    rw [if_pos hc, ← Real.tan_eq_sin_div_cos, Real.arctan_tan hθl hθu]

/-- C3: recomposing a matrix from translation, rotation (Euler angles
in degrees, in their canonical ranges, away from gimbal lock) and a
positive per-axis scale, then decomposing it, returns exactly the
original components (exact reals, hence within any floating
tolerance). -/
theorem decompose_recompose_roundtrip (t0 t1 t2 r0 r1 r2 s0 s1 s2 : ℝ)
    (h0l : -180 < r0) (h0u : r0 ≤ 180)
    (h1l : -90 < r1) (h1u : r1 < 90)
    (h2l : -180 < r2) (h2u : r2 ≤ 180)
    (hs0 : 0 < s0) (hs1 : 0 < s1) (hs2 : 0 < s2) :
    decompose_matrix_to_components
        (recompose_matrix_from_components (t0, t1, t2) (r0, r1, r2) (s0, s1, s2)) =
      ((t0, t1, t2), (r0, r1, r2), (s0, s1, s2)) := by
  have hπ := Real.pi_pos
  set M := recompose_matrix_from_components (t0, t1, t2) (r0, r1, r2) (s0, s1, s2)
    with hM
  have hxl : -Real.pi < deg2rad r0 := by unfold deg2rad; nlinarith
  have hxu : deg2rad r0 ≤ Real.pi := by unfold deg2rad; nlinarith
  have hyl : -(Real.pi / 2) < deg2rad r1 := by unfold deg2rad; nlinarith
  have hyu : deg2rad r1 < Real.pi / 2 := by unfold deg2rad; nlinarith
  have hzl : -Real.pi < deg2rad r2 := by unfold deg2rad; nlinarith
  have hzu : deg2rad r2 ≤ Real.pi := by unfold deg2rad; nlinarith
  have hcy : 0 < Real.cos (deg2rad r1) := Real.cos_pos_of_mem_Ioo ⟨hyl, hyu⟩
  have px := Real.sin_sq_add_cos_sq (deg2rad r0)
  have py := Real.sin_sq_add_cos_sq (deg2rad r1)
  have pz := Real.sin_sq_add_cos_sq (deg2rad r2)
  have e00 : M 0 0 = s0 * (Real.cos (deg2rad r1) * Real.cos (deg2rad r2)) := by
    rw [hM]
    simp only [recompose_matrix_from_components, matMul3, rotX, rotY, rotZ]
    simp only [Matrix.cons_val_zero, Matrix.cons_val_one, Matrix.cons_val_two,
      Matrix.cons_val_three, Matrix.head_cons, Matrix.tail_cons]
    ring
  have e01 : M 0 1 = s0 * (Real.cos (deg2rad r1) * Real.sin (deg2rad r2)) := by
    rw [hM]
    simp only [recompose_matrix_from_components, matMul3, rotX, rotY, rotZ]
    simp only [Matrix.cons_val_zero, Matrix.cons_val_one, Matrix.cons_val_two,
      Matrix.cons_val_three, Matrix.head_cons, Matrix.tail_cons]
    ring
  have e02 : M 0 2 = s0 * -Real.sin (deg2rad r1) := by
    rw [hM]
    simp only [recompose_matrix_from_components, matMul3, rotX, rotY, rotZ]
    simp only [Matrix.cons_val_zero, Matrix.cons_val_one, Matrix.cons_val_two,
      Matrix.cons_val_three, Matrix.head_cons, Matrix.tail_cons]
    ring
  have e10 : M 1 0 = s1 * (Real.sin (deg2rad r0) * Real.sin (deg2rad r1) *
      Real.cos (deg2rad r2) - Real.cos (deg2rad r0) * Real.sin (deg2rad r2)) := by
    rw [hM]
    simp only [recompose_matrix_from_components, matMul3, rotX, rotY, rotZ]
    simp only [Matrix.cons_val_zero, Matrix.cons_val_one, Matrix.cons_val_two,
      Matrix.cons_val_three, Matrix.head_cons, Matrix.tail_cons]
    ring
  have e11 : M 1 1 = s1 * (Real.cos (deg2rad r0) * Real.cos (deg2rad r2) +
      Real.sin (deg2rad r0) * Real.sin (deg2rad r1) * Real.sin (deg2rad r2)) := by
    rw [hM]
    simp only [recompose_matrix_from_components, matMul3, rotX, rotY, rotZ]
    simp only [Matrix.cons_val_zero, Matrix.cons_val_one, Matrix.cons_val_two,
      Matrix.cons_val_three, Matrix.head_cons, Matrix.tail_cons]
    ring
  have e12 : M 1 2 = s1 * (Real.sin (deg2rad r0) * Real.cos (deg2rad r1)) := by
    rw [hM]
    simp only [recompose_matrix_from_components, matMul3, rotX, rotY, rotZ]
    simp only [Matrix.cons_val_zero, Matrix.cons_val_one, Matrix.cons_val_two,
      Matrix.cons_val_three, Matrix.head_cons, Matrix.tail_cons]
    ring
  have e20 : M 2 0 = s2 * (Real.sin (deg2rad r0) * Real.sin (deg2rad r2) +
      Real.cos (deg2rad r0) * Real.sin (deg2rad r1) * Real.cos (deg2rad r2)) := by
    rw [hM]
    simp only [recompose_matrix_from_components, matMul3, rotX, rotY, rotZ]
    simp only [Matrix.cons_val_zero, Matrix.cons_val_one, Matrix.cons_val_two,
      Matrix.cons_val_three, Matrix.head_cons, Matrix.tail_cons]
    ring
  have e21 : M 2 1 = s2 * (Real.cos (deg2rad r0) * Real.sin (deg2rad r1) *
      Real.sin (deg2rad r2) - Real.sin (deg2rad r0) * Real.cos (deg2rad r2)) := by
    rw [hM]
    simp only [recompose_matrix_from_components, matMul3, rotX, rotY, rotZ]
    simp only [Matrix.cons_val_zero, Matrix.cons_val_one, Matrix.cons_val_two,
      Matrix.cons_val_three, Matrix.head_cons, Matrix.tail_cons]
    ring
  have e22 : M 2 2 = s2 * (Real.cos (deg2rad r0) * Real.cos (deg2rad r1)) := by
    rw [hM]
    simp only [recompose_matrix_from_components, matMul3, rotX, rotY, rotZ]
    simp only [Matrix.cons_val_zero, Matrix.cons_val_one, Matrix.cons_val_two,
      Matrix.cons_val_three, Matrix.head_cons, Matrix.tail_cons]
    ring
  have e30 : M 3 0 = t0 := by
    rw [hM]
    simp only [recompose_matrix_from_components, matMul3, rotX, rotY, rotZ]
    simp only [Matrix.cons_val_zero, Matrix.cons_val_one, Matrix.cons_val_two,
      Matrix.cons_val_three, Matrix.head_cons, Matrix.tail_cons]
  have e31 : M 3 1 = t1 := by
    rw [hM]
    simp only [recompose_matrix_from_components, matMul3, rotX, rotY, rotZ]
    simp only [Matrix.cons_val_zero, Matrix.cons_val_one, Matrix.cons_val_two,
      Matrix.cons_val_three, Matrix.head_cons, Matrix.tail_cons]
  have e32 : M 3 2 = t2 := by
    rw [hM]
    simp only [recompose_matrix_from_components, matMul3, rotX, rotY, rotZ]
    simp only [Matrix.cons_val_zero, Matrix.cons_val_one, Matrix.cons_val_two,
      Matrix.cons_val_three, Matrix.head_cons, Matrix.tail_cons]
  have hsum0 : M 0 0 * M 0 0 + M 0 1 * M 0 1 + M 0 2 * M 0 2 = s0 ^ 2 := by
    rw [e00, e01, e02]
    linear_combination (s0 ^ 2 * Real.cos (deg2rad r1) ^ 2) * pz + s0 ^ 2 * py
  have hsum1 : M 1 0 * M 1 0 + M 1 1 * M 1 1 + M 1 2 * M 1 2 = s1 ^ 2 := by
    rw [e10, e11, e12]
    linear_combination
      (s1 ^ 2 * (Real.sin (deg2rad r0) ^ 2 * Real.sin (deg2rad r1) ^ 2 +
        Real.cos (deg2rad r0) ^ 2)) * pz +
      (s1 ^ 2 * Real.sin (deg2rad r0) ^ 2) * py + s1 ^ 2 * px
  have hsum2 : M 2 0 * M 2 0 + M 2 1 * M 2 1 + M 2 2 * M 2 2 = s2 ^ 2 := by
    rw [e20, e21, e22]
    linear_combination
      (s2 ^ 2 * (Real.sin (deg2rad r0) ^ 2 +
        Real.cos (deg2rad r0) ^ 2 * Real.sin (deg2rad r1) ^ 2)) * pz +
      (s2 ^ 2 * Real.cos (deg2rad r0) ^ 2) * py + s2 ^ 2 * px
  have hlen0 : len3 (M 0 0) (M 0 1) (M 0 2) = s0 := by
    unfold len3
    rw [hsum0, Real.sqrt_sq hs0.le]
  have hlen1 : len3 (M 1 0) (M 1 1) (M 1 2) = s1 := by
    unfold len3
    rw [hsum1, Real.sqrt_sq hs1.le]
  have hlen2 : len3 (M 2 0) (M 2 1) (M 2 2) = s2 := by
    unfold len3
    rw [hsum2, Real.sqrt_sq hs2.le]
  simp only [decompose_matrix_to_components]
  rw [hlen0, hlen1, hlen2, e00, e01, e02, e12, e22, e30, e31, e32]
  rw [mul_div_cancel_left₀ _ (ne_of_gt hs0), mul_div_cancel_left₀ _ (ne_of_gt hs0),
    mul_div_cancel_left₀ _ (ne_of_gt hs0), mul_div_cancel_left₀ _ (ne_of_gt hs1),
    mul_div_cancel_left₀ _ (ne_of_gt hs2)]
  have hq : Real.sin (deg2rad r0) * Real.cos (deg2rad r1) *
      (Real.sin (deg2rad r0) * Real.cos (deg2rad r1)) +
      Real.cos (deg2rad r0) * Real.cos (deg2rad r1) *
      (Real.cos (deg2rad r0) * Real.cos (deg2rad r1)) =
      Real.cos (deg2rad r1) ^ 2 := by
    linear_combination Real.cos (deg2rad r1) ^ 2 * px
  rw [hq, Real.sqrt_sq hcy.le, neg_neg]
  rw [atan2_smul_right (Real.sin (deg2rad r0)) (Real.cos (deg2rad r0)) _ hcy]
  rw [mul_comm (Real.cos (deg2rad r1)) (Real.sin (deg2rad r2)),
    mul_comm (Real.cos (deg2rad r1)) (Real.cos (deg2rad r2))]
  rw [atan2_smul_right (Real.sin (deg2rad r2)) (Real.cos (deg2rad r2)) _ hcy]
  rw [atan2_sin_cos hxl hxu, atan2_sin_cos (by linarith) (by linarith),
    atan2_sin_cos hzl hzu]
  rw [rad2deg_deg2rad, rad2deg_deg2rad, rad2deg_deg2rad]

/-- C3 witness: the round trip at translation `(4,5,6)`, rotation
`(0,0,0)` degrees and scale `(1,2,3)`. -/
theorem decompose_recompose_roundtrip_witness :
    ((-180 : ℝ) < 0 ∧ (0 : ℝ) ≤ 180 ∧ (-90 : ℝ) < 0 ∧ (0 : ℝ) < 90 ∧
      (0 : ℝ) < 1 ∧ (0 : ℝ) < 2 ∧ (0 : ℝ) < 3) ∧
    decompose_matrix_to_components
        (recompose_matrix_from_components (4, 5, 6) (0, 0, 0) (1, 2, 3)) =
      ((4, 5, 6), (0, 0, 0), (1, 2, 3)) :=
  ⟨⟨by norm_num, by norm_num, by norm_num, by norm_num, by norm_num, by norm_num,
    by norm_num⟩,
   decompose_recompose_roundtrip 4 5 6 0 0 0 1 2 3 (by norm_num) (by norm_num)
     (by norm_num) (by norm_num) (by norm_num) (by norm_num) (by norm_num) (by norm_num)
     (by norm_num)⟩

end ImGuizmoSpec
